import Mathlib

/-!
Verification of the endpoint-fetcher request-composition pipeline.

The definitions below are a shallow embedding of `src/utils.ts` (buildUrl,
mergeHooks, createEnhancedFetch) and `src/client.ts` (defaultHandler,
applyHandlerWrappers, processEndpoints, createApiClient).  Asynchronous
JavaScript execution is single-threaded and every `await` point is sequential,
so promises are modelled by a monad `M` that threads an event trace (used to
observe hook and transport invocations) and propagates thrown values as
exceptions.  JSON values and thrown values are modelled by small inductive
types; JSON encode/decode are external collaborators and are modelled as the
identity on structured values, with an explicit decode-failure case on
responses.
-/

/-- Structured (JSON-like) values: inputs, decoded bodies, error payloads. -/
inductive JsonVal where
  | null
  | bool (b : Bool)
  | num (n : Int)
  | str (s : String)
  | arr (xs : List JsonVal)
  | obj (fields : List (String × JsonVal))


/-- Values thrown by JavaScript code in the pipeline. -/
inductive JsErr where
  /-- The Request Failure object `{status, statusText, error}` thrown by the
  default handler on a non-ok response. -/
  | requestFailure (status : Nat) (statusText : String) (error : JsonVal)
  /-- A body-decode rejection from `response.json()`. -/
  | decodeFailure
  /-- Any other thrown value (transport errors, hook errors, ...). -/
  | thrown (tag : String)


/-- Model of a `RequestInit` object: the fields the pipeline reads or writes.
The body is kept as a structured value (JSON.stringify is an external
collaborator modelled as the identity embedding). -/
structure RequestInitM where
  reqMethod : Option String
  headers : List (String × String)
  body : Option JsonVal


/-- The empty `RequestInit` object `{}` (spread of `undefined`). -/
def emptyInit : RequestInitM := ⟨none, [], none⟩

/-- Model of a `Response`: the fields the pipeline reads.  `jsonBody = none`
models a `response.json()` call that rejects. -/
structure ResponseM where
  ok : Bool
  status : Nat
  statusText : String
  jsonBody : Option JsonVal


/-- Observable events of one call: hook invocations (with the arguments the
hook received) and underlying-transport invocations. -/
inductive Event where
  | beforeHook (id : String) (url : String) (init : RequestInitM)
  | afterHook (id : String) (response : ResponseM)
  | errorHook (id : String) (e : JsErr)
  | transportCall (url : String) (init : Option RequestInitM)


/-- A trace of observable events, in execution order. -/
abbrev Trace := List Event

/-- The execution monad: sequential (single-threaded) async execution with an
event trace and thrown values.  A thrown value keeps the trace accumulated so
far, matching JavaScript semantics where effects before a throw persist. -/
def M (α : Type) : Type := Trace → Except JsErr α × Trace

namespace M

/-- Monadic bind: sequential `await`; a thrown value short-circuits. -/
def bind {α β : Type} (m : M α) (f : α → M β) : M β := fun t =>
  match m t with
  | (.ok a, t') => f a t'
  | (.error e, t') => (.error e, t')

instance : Monad M where
  pure a := fun t => (.ok a, t)
  bind := M.bind

/-- Record an observable event. -/
def emit (e : Event) : M Unit := fun t => (.ok (), t ++ [e])

/-- Throw a JavaScript value. -/
def throwErr {α : Type} (e : JsErr) : M α := fun t => (.error e, t)

/-- JavaScript `try { m } catch (e) { h e }`. -/
def tryCatchM {α : Type} (m : M α) (h : JsErr → M α) : M α := fun t =>
  match m t with
  | (.ok a, t') => (.ok a, t')
  | (.error e, t') => h e t'

/-- Run a computation from the empty trace. -/
def runM {α : Type} (m : M α) : Except JsErr α × Trace := m []

end M

/-- Lift a pure possibly-throwing result into `M`. -/
def liftExc {α : Type} : Except JsErr α → M α
  | .ok a => pure a
  | .error e => M.throwErr e

/-- A transport function (`typeof fetch`): url and optional init to a
promise of a response. -/
abbrev Transport := String → Option RequestInitM → M ResponseM

/-! ## Embedding of `src/utils.ts` -/

/-- String endsWith, computed on the character list (the `String` library
versions do not reduce definitionally). -/
def strEndsWith (s suffix : String) : Bool := suffix.data.isSuffixOf s.data

/-- String startsWith, computed on the character list. -/
def strStartsWith (s pre : String) : Bool := pre.data.isPrefixOf s.data

/-- Embeds `buildUrl` (utils.ts:6-10): strip at most one trailing slash from
the base, ensure exactly one leading slash on the path, concatenate. -/
def buildUrl (path : String) (baseUrl : String) : String :=
  let normalizedBase := if strEndsWith baseUrl "/" then String.mk baseUrl.data.dropLast else baseUrl
  let normalizedPath := if strStartsWith path "/" then path else "/" ++ path
  normalizedBase ++ normalizedPath

/-- A hook set (`Hooks` in types.ts): three optional callbacks. -/
structure Hooks where
  beforeRequest : Option (String → RequestInitM → M (String × RequestInitM))
  afterResponse : Option (ResponseM → String → RequestInitM → M ResponseM)
  onError : Option (JsErr → M Unit)

/-- Embeds `mergeHooks` (utils.ts:18-63).  The variadic parameter list of
optional hook sets is a `List (Option Hooks)`; `filter(h => !!h?.kind).map(...)`
is `filterMap`.  Each merged chain is built only when at least one source
defines that kind. -/
def mergeHooks (hooksList : List (Option Hooks)) : Hooks :=
  let beforeRequestHooks := hooksList.filterMap (fun h => h.bind (·.beforeRequest))
  let afterResponseHooks := (hooksList.filterMap (fun h => h.bind (·.afterResponse))).reverse
  let onErrorHooks := hooksList.filterMap (fun h => h.bind (·.onError))
  { beforeRequest :=
      if beforeRequestHooks.length > 0 then
        some (fun url init =>
          beforeRequestHooks.foldlM (fun result hook => hook result.1 result.2) (url, init))
      else none
    afterResponse :=
      if afterResponseHooks.length > 0 then
        some (fun response url init =>
          afterResponseHooks.foldlM (fun result hook => hook result url init) response)
      else none
    onError :=
      if onErrorHooks.length > 0 then
        some (fun e => onErrorHooks.forM (fun hook => hook e))
      else none }

/-- Embeds `createEnhancedFetch` (utils.ts:68-102).  The call target is already
a plain URL string in this model (the `RequestInfo`/`URL` normalization of
lines 73-77 is the identity on strings); `{...init}` on a possibly-undefined
init yields the empty object.  Note that the `beforeRequest` call happens
before the `try` block: a pre-call failure propagates without running
`onError`.  Inside the `catch`, a failure of `onError` itself supersedes the
original error, since the re-throw is never reached. -/
def createEnhancedFetch (fetchInstance : Transport) (hooks : Hooks) : Transport :=
  fun input initQ =>
    let url := input
    let finalInit := initQ.getD emptyInit
    M.bind
      (match hooks.beforeRequest with
       | some br => br url finalInit
       | none => pure (url, finalInit))
      (fun p =>
        M.tryCatchM
          (M.bind (fetchInstance p.1 (some p.2)) (fun response =>
            match hooks.afterResponse with
            | some ar => ar response p.1 p.2
            | none => pure response))
          (fun error =>
            M.bind
              (match hooks.onError with
               | some oe => oe error
               | none => pure ())
              (fun _ => M.throwErr error)))

/-! ## Embedding of `src/client.ts` -/

/-- HTTP methods (`HttpMethod` in types.ts). -/
inductive HttpMethod where
  | GET | POST | PUT | PATCH | DELETE
deriving DecidableEq, Repr

/-- String form of a method, used when it is stored into request options. -/
def HttpMethod.asString : HttpMethod → String
  | .GET => "GET"
  | .POST => "POST"
  | .PUT => "PUT"
  | .PATCH => "PATCH"
  | .DELETE => "DELETE"

/-- An endpoint path: a literal string or a function of the call's input
(`path: string | ((input) => string)` in types.ts).  The input value is an
`Option JsonVal`, `none` standing for `undefined`. -/
inductive PathSpec where
  | lit (s : String)
  | fn (f : Option JsonVal → String)

/-- The parameter object a custom handler receives
(`{input, fetch, method, path, baseUrl}`). -/
structure HandlerParams where
  input : Option JsonVal
  fetchImpl : Transport
  method : HttpMethod
  path : String
  baseUrl : String

/-- The call context handed to base handlers and handler wrappers
(`{fetch, method, path, baseUrl}`). -/
structure Ctx where
  fetchImpl : Transport
  method : HttpMethod
  path : String
  baseUrl : String

/-- A call executor `(input, context) => Promise<output>`. -/
abbrev Handler := Option JsonVal → Ctx → M JsonVal

/-- An endpoint descriptor (`EndpointConfig` in types.ts). -/
structure EndpointCfg where
  method : HttpMethod
  path : PathSpec
  hooks : Option Hooks
  handler : Option (HandlerParams → M JsonVal)

/-- A plugin descriptor (`PluginOptions`).  The `name` field follows the
revision of `src/plugin.ts` present in the repository, where `createPlugin`
stamps the plugin's identity onto the returned options. -/
structure PluginOptions where
  name : String
  hooks : Option Hooks
  handlerWrapper : Option (Handler → EndpointCfg → Handler)
  methods : Option (List (String × (List JsonVal → M JsonVal)))

/-- Client configuration (`ApiConfig` in types.ts). -/
structure ApiConfig where
  baseUrl : String
  fetchImpl : Option Transport
  defaultHeaders : List (String × String)
  hooks : Option Hooks
  plugins : Option (List PluginOptions)

/-- JavaScript key assignment `obj[k] = v` on an ordered string-keyed object:
overwrite in place if the key exists, else append. -/
def objSet {α : Type} (obj : List (String × α)) (k : String) (v : α) : List (String × α) :=
  if obj.any (fun kv => kv.1 = k) then
    obj.map (fun kv => if kv.1 = k then (k, v) else kv)
  else obj ++ [(k, v)]

/-- JavaScript `Object.assign(target, source)`: assign every key of `source`
onto `target`, in source order. -/
def objAssign {α : Type} (target source : List (String × α)) : List (String × α) :=
  source.foldl (fun acc kv => objSet acc kv.1 kv.2) target

/-- JavaScript property lookup on an ordered string-keyed object. -/
def objGet {α : Type} (obj : List (String × α)) (k : String) : Option α :=
  (obj.find? (fun kv => kv.1 = k)).map (·.2)

/-- Embeds `defaultHandler` (client.ts:16-51): build the URL, build request
options (JSON content type merged with default headers by object spread; body
attached unless the method is GET/DELETE or the input is `undefined`), call a
fresh enhanced transport, then check the status and decode the body.
`response.json().catch(() => ({}))` is the decoded body or `{}`. -/
def defaultHandler (method : HttpMethod) (path : String) (input : Option JsonVal)
    (hooks : Hooks) (config : ApiConfig) (fetchInstance : Transport) : M JsonVal :=
  let url := buildUrl path config.baseUrl
  let headers := objAssign [("Content-Type", "application/json")] config.defaultHeaders
  let options : RequestInitM :=
    { reqMethod := some method.asString
      headers := headers
      body := if method ≠ .GET ∧ method ≠ .DELETE ∧ input.isSome then input else none }
  let enhancedFetch := createEnhancedFetch fetchInstance hooks
  M.bind (enhancedFetch url (some options)) (fun response =>
    if !response.ok then
      M.bind (pure (response.jsonBody.getD (JsonVal.obj []))) (fun error =>
        M.throwErr (.requestFailure response.status response.statusText error))
    else
      match response.jsonBody with
      | some v => pure v
      | none => M.throwErr .decodeFailure)

/-- Embeds `applyHandlerWrappers` (client.ts:56-87): fold the plugin list over
the base handler, the first plugin wrapping innermost (the loop reassigns the
accumulator in registration order). -/
def applyHandlerWrappers (baseHandler : Handler) (plugins : List PluginOptions)
    (endpoint : EndpointCfg) : Handler :=
  plugins.foldl
    (fun wrappedHandler p =>
      match p.handlerWrapper with
      | some w => w wrappedHandler endpoint
      | none => wrappedHandler)
    baseHandler

/-- A node of the endpoint/group descriptor tree.  `leaf` is an object with
endpoint fields; `node` is an object with optional `hooks`, `endpoints` and
`groups` keys (`Option` records key presence, mirroring the structural
`isGroupConfig` dispatch of types.ts). -/
inductive DefTree where
  | leaf (e : EndpointCfg)
  | node (hooks : Option Hooks)
         (endpoints : Option (List (String × DefTree)))
         (groups : Option (List (String × DefTree)))

/-- Embeds `isGroupConfig` (types.ts:113-115): `'endpoints' in config ||
'groups' in config`.  An endpoint object has neither key; a hooks-only group
object also fails the test and is treated as an endpoint. -/
def isGroupConfig : DefTree → Bool
  | .leaf _ => false
  | .node _ endpoints groups => endpoints.isSome || groups.isSome

/-- The built client surface: each entry is a callable endpoint or a nested
namespace object. -/
inductive Built where
  | call (f : Option JsonVal → M JsonVal)
  | ns (entries : List (String × Built))

mutual

/-- Embeds the loop of `processEndpoints` (client.ts:92-197) over
`Object.entries(definitions)`; entry keys of a JavaScript object literal are
distinct, so successive assignments append in entry order. -/
def processList (definitions : List (String × DefTree)) (config : ApiConfig)
    (fetchInstance : Transport) (parentHooks : List Hooks)
    (plugins : List PluginOptions) : List (String × Built) :=
  match definitions with
  | [] => []
  | (name, definition) :: rest =>
      (name, processDef definition config fetchInstance parentHooks plugins)
        :: processList rest config fetchInstance parentHooks plugins

/-- Embeds the per-entry body of `processEndpoints` (client.ts:101-193).
A group node pushes its own hooks onto the ancestor chain, recurses into its
`endpoints` and `groups` maps and merges both results into one namespace by
`Object.assign` (groups merged after endpoints).  An endpoint entry merges
hooks as `mergeHooks(...pluginHooks, config.hooks, ...parentHooks,
endpoint.hooks)` at build time and returns a callable that resolves the path,
selects the base handler (custom or default), applies the plugin handler
wrappers and invokes the result with a context whose transport is a fresh
enhanced transport over the merged hook set.  An object that fails
`isGroupConfig` but has no endpoint fields (a hooks-only group) is cast to an
endpoint in the source; calling it dereferences `undefined` fields, modelled
as a thrown TypeError. -/
def processDef (definition : DefTree) (config : ApiConfig)
    (fetchInstance : Transport) (parentHooks : List Hooks)
    (plugins : List PluginOptions) : Built :=
  match definition with
  | .node nodeHooks endpointsMap groupsMap =>
      if endpointsMap.isSome || groupsMap.isSome then
        let groupHooks := parentHooks ++ (match nodeHooks with
          | some h => [h]
          | none => [])
        let fromEndpoints := match endpointsMap with
          | some l => processList l config fetchInstance groupHooks plugins
          | none => []
        let fromGroups := match groupsMap with
          | some l => processList l config fetchInstance groupHooks plugins
          | none => []
        Built.ns (objAssign (objAssign [] fromEndpoints) fromGroups)
      else
        Built.call (fun _ => M.throwErr (.thrown "TypeError"))
  | .leaf endpoint =>
      let pluginHooks := plugins.filterMap (·.hooks)
      let mergedHooks := mergeHooks
        (pluginHooks.map some ++ [config.hooks] ++ parentHooks.map some ++ [endpoint.hooks])
      Built.call (fun input =>
        let path := match endpoint.path with
          | .fn f => f input
          | .lit s => s
        let baseHandler : Handler := match endpoint.handler with
          | some h => fun input ctx =>
              h { input := input, fetchImpl := ctx.fetchImpl, method := ctx.method
                  path := ctx.path, baseUrl := ctx.baseUrl }
          | none => fun input ctx =>
              defaultHandler ctx.method ctx.path input mergedHooks config ctx.fetchImpl
        let wrappedHandler := applyHandlerWrappers baseHandler plugins endpoint
        let enhancedFetch := createEnhancedFetch fetchInstance mergedHooks
        wrappedHandler input
          { fetchImpl := enhancedFetch, method := endpoint.method
            path := path, baseUrl := config.baseUrl })

end

/-- Models `globalThis.fetch`, the ambient transport used when the
configuration supplies none; all verified scenarios supply `config.fetch`. -/
def globalFetch : Transport := fun _ _ => M.throwErr (.thrown "NetworkError")

/-- Embeds `createApiClient` (client.ts:268-282): pick the transport and the
plugin list from the configuration and walk the descriptor tree. -/
def createApiClient (endpoints : List (String × DefTree)) (config : ApiConfig) :
    List (String × Built) :=
  let fetchInstance := config.fetchImpl.getD globalFetch
  let plugins := config.plugins.getD []
  processList endpoints config fetchInstance [] plugins

/-! ## Spec-modelled build-time plugin validation and methods namespace

The repository's tests (`tests/helpers.test.ts`, "named plugins") exercise a
client-builder revision that validates plugin identities and exposes plugin
methods grouped by identity; that revision of `client.ts` is not among the
source files, so the two functions below are modelled from the specification
(and the error-message shape fixed by the test suite). -/

/-- Modelled from the spec: "identities must be pairwise distinct; first
duplicate found aborts client construction with an error naming that
identity."  Scans the identity list in order, returning the first identity
already seen. -/
def firstDupAux (seen : List String) : List String → Option String
  | [] => none
  | n :: rest => if n ∈ seen then some n else firstDupAux (seen ++ [n]) rest

/-- Modelled from the spec: "for each plugin defining a `methods` map, its
methods are exposed under a property named by that plugin's identity; if no
plugin defines any methods, the namespace is entirely omitted from the built
client (not present as an empty object)." -/
def buildPluginMethods (plugins : List PluginOptions) :
    Option (List (String × List (String × (List JsonVal → M JsonVal)))) :=
  let withMethods := plugins.filterMap (fun p => p.methods.map (fun ms => (p.name, ms)))
  if withMethods.isEmpty then none
  else some (withMethods.foldl (fun acc kv => objSet acc kv.1 kv.2) [])

/-- Modelled from the spec: the client builder with build-time plugin-identity
validation ("thrown synchronously at build time, before any call is possible;
names the offending identity" — the message text follows the repository's
test expectation `Duplicate plugin name: "cache"`), returning the namespace
tree together with the optional plugin-methods namespace. -/
def createApiClientChecked (endpoints : List (String × DefTree)) (config : ApiConfig) :
    Except String
      (List (String × Built) × Option (List (String × List (String × (List JsonVal → M JsonVal))))) :=
  let plugins := config.plugins.getD []
  match firstDupAux [] (plugins.map (·.name)) with
  | some n => .error ("Duplicate plugin name: \"" ++ n ++ "\"")
  | none => .ok (createApiClient endpoints config, buildPluginMethods plugins)

/-! ## Instrumented collaborators

Hooks and transports are external collaborators.  To observe their invocation
counts, order and arguments, the theorems below instantiate them with
instrumented versions: each invocation first records an event carrying the
arguments the collaborator received, then behaves as a pure (possibly
throwing) function of those arguments. -/

/-- An instrumented pre-call hook: log the received `(url, init)`, then return
(or throw) the pure outcome. -/
def instrBefore (id : String) (f : String → RequestInitM → Except JsErr (String × RequestInitM)) :
    String → RequestInitM → M (String × RequestInitM) :=
  fun url init => M.bind (M.emit (.beforeHook id url init)) (fun _ => liftExc (f url init))

/-- An instrumented post-call hook: log the received response, then return
(or throw) the pure outcome. -/
def instrAfter (id : String) (f : ResponseM → String → RequestInitM → Except JsErr ResponseM) :
    ResponseM → String → RequestInitM → M ResponseM :=
  fun response url init =>
    M.bind (M.emit (.afterHook id response)) (fun _ => liftExc (f response url init))

/-- An instrumented on-error hook: log the received error, then complete or
throw. -/
def instrErr (id : String) (f : JsErr → Except JsErr Unit) : JsErr → M Unit :=
  fun e => M.bind (M.emit (.errorHook id e)) (fun _ => liftExc (f e))

/-- An instrumented transport: log the received `(url, init)`, then return
(or throw) the pure outcome. -/
def instrTransport (g : String → Option RequestInitM → Except JsErr ResponseM) : Transport :=
  fun url init => M.bind (M.emit (.transportCall url init)) (fun _ => liftExc (g url init))

/-- One hook-set source whose hooks are total instrumented pure functions,
labelled by `id`. -/
structure PureHooks where
  id : String
  beforeFn : Option (String → RequestInitM → String × RequestInitM)
  afterFn : Option (ResponseM → String → RequestInitM → ResponseM)
  hasOnError : Bool

/-- The hook set of a `PureHooks` source. -/
def PureHooks.toHooks (h : PureHooks) : Hooks where
  beforeRequest := h.beforeFn.map (fun f => instrBefore h.id (fun u i => .ok (f u i)))
  afterResponse := h.afterFn.map (fun f => instrAfter h.id (fun r u i => .ok (f r u i)))
  onError := if h.hasOnError then some (instrErr h.id (fun _ => .ok ())) else none

/-! ## Statement-side helpers -/

/-- Count the trace events satisfying a predicate. -/
def countEvents (p : Event → Bool) (t : Trace) : Nat := (t.filter p).length

/-- Recognize a pre-call invocation of the hook labelled `id`. -/
def isBeforeId (id : String) : Event → Bool
  | .beforeHook j _ _ => j == id
  | _ => false

/-- Recognize a post-call invocation of the hook labelled `id`. -/
def isAfterId (id : String) : Event → Bool
  | .afterHook j _ => j == id
  | _ => false

/-- Recognize an on-error invocation of the hook labelled `id`. -/
def isErrorId (id : String) : Event → Bool
  | .errorHook j _ => j == id
  | _ => false

/-- Recognize an underlying-transport invocation. -/
def isTransportEv : Event → Bool
  | .transportCall _ _ => true
  | _ => false

/-- Invoke a built endpoint at a key of the client surface. -/
def callBuilt (entries : List (String × Built)) (k : String) (input : Option JsonVal) :
    M JsonVal :=
  match objGet entries k with
  | some (.call f) => f input
  | _ => M.throwErr (.thrown "TypeError")

/-- Spec-side pre-call chain: thread `(url, init)` through labelled pure
pre-call functions in the given order, each consuming the previous result,
logging every invocation with the arguments it receives. -/
def threadBefore : List (String × (String → RequestInitM → String × RequestInitM)) →
    String → RequestInitM → (String × RequestInitM) × Trace
  | [], u, i => ((u, i), [])
  | (id, f) :: rest, u, i =>
      let p := f u i
      let r := threadBefore rest p.1 p.2
      (r.1, Event.beforeHook id u i :: r.2)

/-- Spec-side post-call chain: thread the response through labelled pure
post-call functions in the given order with a fixed `(url, init)`, logging
every invocation with the response it receives. -/
def threadAfter : List (String × (ResponseM → String → RequestInitM → ResponseM)) →
    ResponseM → String → RequestInitM → ResponseM × Trace
  | [], r, _, _ => (r, [])
  | (id, f) :: rest, r, u, i =>
      let r' := f r u i
      let res := threadAfter rest r' u i
      (res.1, Event.afterHook id r :: res.2)

/-- Spec-side on-error chain: invoke labelled possibly-throwing on-error
functions in order, sequentially, stopping at the first failure, which
propagates. -/
def chainErr : List (String × (JsErr → Except JsErr Unit)) → JsErr →
    Except JsErr Unit × Trace
  | [], _ => (.ok (), [])
  | (id, f) :: rest, e =>
      match f e with
      | .ok _ =>
          let r := chainErr rest e
          (r.1, Event.errorHook id e :: r.2)
      | .error e' => (.error e', [Event.errorHook id e])

/-! ## Chain lemmas -/

/-- The labelled pre-call sources a `PureHooks` list defines, in order. -/
def pickBefore (hs : List PureHooks) :
    List (String × (String → RequestInitM → String × RequestInitM)) :=
  hs.filterMap (fun h => h.beforeFn.map (fun f => (h.id, f)))

/-- The labelled post-call sources a `PureHooks` list defines, in order. -/
def pickAfter (hs : List PureHooks) :
    List (String × (ResponseM → String → RequestInitM → ResponseM)) :=
  hs.filterMap (fun h => h.afterFn.map (fun f => (h.id, f)))

/-- A hook-set source defining only an on-error hook. -/
def errOnly (p : String × (JsErr → Except JsErr Unit)) : Hooks :=
  ⟨none, none, some (instrErr p.1 p.2)⟩

/-- A computation that never invokes the underlying transport (it may record
hook events, but no transport event). -/
def addsNoTransport {α : Type} (m : M α) : Prop :=
  ∀ t, countEvents isTransportEv (m t).2 = countEvents isTransportEv t


/-- A fully observable hook-set source: its pre-call hook appends the label to
the url, its post-call hook is the identity, its on-error hook is present;
every invocation is logged with the received arguments. -/
def obsHooks (id : String) : Hooks :=
  PureHooks.toHooks ⟨id, some (fun u i => (u ++ id, i)), some (fun r _ _ => r), true⟩

/-- A successful response used by the concrete scenarios. -/
def okResp : ResponseM := ⟨true, 200, "OK", some (JsonVal.str "payload")⟩

/-- An instrumented transport that always succeeds with `okResp`. -/
def okTransport : Transport := instrTransport (fun _ _ => .ok okResp)

/-- An instrumented transport that always rejects. -/
def errTransport : Transport := instrTransport (fun _ _ => .error (.thrown "NetworkError"))

/-- A hooks-only plugin labelled `id`. -/
def mkPlugin (id : String) : PluginOptions := ⟨id, some (obsHooks id), none, none⟩

/-- Walk nested namespaces of a built client and invoke the endpoint at the
end of the key path. -/
def navCall (entries : List (String × Built)) : List String → Option JsonVal → M JsonVal
  | [], _ => M.throwErr (.thrown "TypeError")
  | [k], input => callBuilt entries k input
  | k :: k' :: rest, input =>
      match objGet entries k with
      | some (.ns inner) => navCall inner (k' :: rest) input
      | _ => M.throwErr (.thrown "TypeError")

/-- The labels of the pre-call hook invocations of a trace, in order. -/
def beforeIds (t : Trace) : List String :=
  t.filterMap fun e => match e with
    | .beforeHook id _ _ => some id
    | _ => none

/-- The urls the underlying transport received, in order. -/
def transportUrls (t : Trace) : List String :=
  t.filterMap fun e => match e with
    | .transportCall u _ => some u
    | _ => none

/-- Concrete descriptor tree for the hook-ordering scenario: group `a`
(hooks `g1`) contains sub-group `b` (hooks `g2`) containing endpoint `ep`
(hooks `ep`, no custom handler). -/
def scenarioDefs : List (String × DefTree) :=
  [("a", .node (some (obsHooks "g1")) none
      (some [("b", .node (some (obsHooks "g2"))
          (some [("ep", .leaf ⟨.GET, .lit "/x", some (obsHooks "ep"), none⟩)]) none)]))]

/-- Concrete configuration for the hook-ordering scenario: global hooks `g`
and two hooks-only plugins `p1`, `p2`, in this registration order. -/
def scenarioConfig (tr : Transport) : ApiConfig :=
  { baseUrl := "https://api.example.com", fetchImpl := some tr, defaultHeaders := []
    hooks := some (obsHooks "g"), plugins := some [mkPlugin "p1", mkPlugin "p2"] }

/-- A single default-executed endpoint carrying one fully observable hook-set
source labelled `h`. -/
def epDefault : DefTree := .leaf ⟨.GET, .lit "/x", some (obsHooks "h"), none⟩

/-- The same endpoint with a custom handler that performs exactly one call
through the transport supplied in its parameter object. -/
def epCustom : DefTree := .leaf ⟨.GET, .lit "/x", some (obsHooks "h"),
  some (fun params =>
    M.bind (params.fetchImpl "https://api.example.com/x" none)
      (fun _ => pure (JsonVal.str "done")))⟩

/-- Minimal configuration for the hook-count scenarios. -/
def c1Config (tr : Transport) : ApiConfig :=
  { baseUrl := "https://api.example.com", fetchImpl := some tr, defaultHeaders := []
    hooks := none, plugins := none }

/-- Build a one-endpoint client and run one call of it. -/
def c1Run (d : DefTree) (tr : Transport) : Except JsErr JsonVal × Trace :=
  M.runM (callBuilt (createApiClient [("ep", d)] (c1Config tr)) "ep" none)


/-- Witness data: one pre-call source labelled `x` appending `x` to the url. -/
def w3hs : List PureHooks := [⟨"x", some (fun u i => (u ++ "x", i)), none, false⟩]

/-- The merged pre-call chain of `w3hs`, written out. -/
def w3F : String → RequestInitM → M (String × RequestInitM) := fun url init =>
  ((w3hs.map (fun h => some h.toHooks)).filterMap (fun h => h.bind (·.beforeRequest))).foldlM
    (fun result hook => hook result.1 result.2) (url, init)

/-- Witness data: two post-call sources; `h1` adds one to the status, `h2`
doubles it. -/
def w4f1 : ResponseM → String → RequestInitM → ResponseM :=
  fun r _ _ => { r with status := r.status + 1 }

/-- Second witness post-call function. -/
def w4f2 : ResponseM → String → RequestInitM → ResponseM :=
  fun r _ _ => { r with status := r.status * 2 }

/-- The merged post-call chain of the two witness sources, written out. -/
def w4F : ResponseM → String → RequestInitM → M ResponseM := fun response url init =>
  ((([some (PureHooks.toHooks ⟨"h1", none, some w4f1, false⟩),
      some (PureHooks.toHooks ⟨"h2", none, some w4f2, false⟩)].filterMap
      (fun h => h.bind (·.afterResponse))).reverse).foldlM
    (fun result hook => hook result url init) response)

/-- Counterexample data: the first on-error source fails, the second is fine. -/
def w6ls : List (String × (JsErr → Except JsErr Unit)) :=
  [("e1", fun _ => .error (.thrown "hookboom")), ("e2", fun _ => .ok ())]

/-- The merged on-error chain of `w6ls`, written out. -/
def w6G : JsErr → M Unit := fun e =>
  ((w6ls.map (fun p => some (errOnly p))).filterMap (fun h => h.bind (·.onError))).forM
    (fun hook => hook e)

/-- Witness data: two on-error sources that both complete normally. -/
def w6okls : List (String × (JsErr → Except JsErr Unit)) :=
  [("a1", fun _ => .ok ()), ("a2", fun _ => .ok ())]

/-- The merged on-error chain of `w6okls`, written out. -/
def w6okG : JsErr → M Unit := fun e =>
  ((w6okls.map (fun p => some (errOnly p))).filterMap (fun h => h.bind (·.onError))).forM
    (fun hook => hook e)

/-! ## Theorems: generic lemmas about the monad and the chains -/

@[simp] theorem M.pure_apply {α : Type} (a : α) (t : Trace) :
    (pure a : M α) t = (.ok a, t) := rfl

@[simp] theorem M.bind_def {α β : Type} (m : M α) (f : α → M β) :
    (m >>= f) = M.bind m f := rfl

@[simp] theorem M.bind_apply {α β : Type} (m : M α) (f : α → M β) (t : Trace) :
    M.bind m f t =
      match m t with
      | (.ok a, t') => f a t'
      | (.error e, t') => (.error e, t') := rfl

@[simp] theorem M.emit_apply (e : Event) (t : Trace) :
    M.emit e t = (.ok (), t ++ [e]) := rfl

@[simp] theorem M.throwErr_apply {α : Type} (e : JsErr) (t : Trace) :
    (M.throwErr e : M α) t = (.error e, t) := rfl

@[simp] theorem M.tryCatchM_apply {α : Type} (m : M α) (h : JsErr → M α) (t : Trace) :
    M.tryCatchM m h t =
      match m t with
      | (.ok a, t') => (.ok a, t')
      | (.error e, t') => h e t' := rfl

@[simp] theorem M.runM_def {α : Type} (m : M α) : M.runM m = m [] := rfl

@[simp] theorem liftExc_ok {α : Type} (a : α) (t : Trace) :
    liftExc (.ok a) t = (.ok a, t) := rfl

@[simp] theorem liftExc_error {α : Type} (e : JsErr) (t : Trace) :
    (liftExc (.error e) : M α) t = (.error e, t) := rfl

theorem beforeChain_run (ls : List (String × (String → RequestInitM → String × RequestInitM)))
    (u : String) (i : RequestInitM) (t : Trace) :
    (ls.map (fun p => instrBefore p.1 (fun u i => .ok (p.2 u i)))).foldlM
        (fun result hook => hook result.1 result.2) (u, i) t
      = (.ok (threadBefore ls u i).1, t ++ (threadBefore ls u i).2) := by
  induction ls generalizing u i t with
  | nil => simp [threadBefore]
  | cons p rest ih =>
      simp only [List.map_cons, List.foldlM_cons, threadBefore, instrBefore,
        M.bind_def, M.bind_apply, M.emit_apply, liftExc_ok]
      rw [ih]
      simp [List.append_assoc]

theorem afterChain_run (ls : List (String × (ResponseM → String → RequestInitM → ResponseM)))
    (r : ResponseM) (u : String) (i : RequestInitM) (t : Trace) :
    (ls.map (fun p => instrAfter p.1 (fun r u i => .ok (p.2 r u i)))).foldlM
        (fun result hook => hook result u i) r t
      = (.ok (threadAfter ls r u i).1, t ++ (threadAfter ls r u i).2) := by
  induction ls generalizing r t with
  | nil => simp [threadAfter]
  | cons p rest ih =>
      simp only [List.map_cons, List.foldlM_cons, threadAfter, instrAfter,
        M.bind_def, M.bind_apply, M.emit_apply, liftExc_ok]
      rw [ih]
      simp [List.append_assoc]

theorem errChain_run (ls : List (String × (JsErr → Except JsErr Unit)))
    (e : JsErr) (t : Trace) :
    (ls.map (fun p => instrErr p.1 p.2)).forM (fun hook => hook e) t
      = ((chainErr ls e).1, t ++ (chainErr ls e).2) := by
  induction ls generalizing t with
  | nil => simp [chainErr, List.forM]
  | cons p rest ih =>
      rw [List.map_cons, List.forM_cons']
      simp only [chainErr, instrErr, M.bind_def, M.bind_apply, M.emit_apply]
      cases h : p.2 e with
      | ok a =>
          simp only [h, liftExc_ok]
          rw [ih]
          simp [List.append_assoc]
      | error e' => simp [h]

theorem sources_before (hs : List PureHooks) :
    (hs.map (fun h => some h.toHooks)).filterMap (fun h => h.bind (·.beforeRequest))
      = (pickBefore hs).map (fun p => instrBefore p.1 (fun u i => .ok (p.2 u i))) := by
  induction hs with
  | nil => simp [pickBefore]
  | cons h rest ih =>
      cases hb : h.beforeFn <;>
        simp [pickBefore, PureHooks.toHooks, hb, ih, List.filterMap_cons] <;>
        simpa [pickBefore] using ih

theorem sources_after (hs : List PureHooks) :
    (hs.map (fun h => some h.toHooks)).filterMap (fun h => h.bind (·.afterResponse))
      = (pickAfter hs).map (fun p => instrAfter p.1 (fun r u i => .ok (p.2 r u i))) := by
  induction hs with
  | nil => simp [pickAfter]
  | cons h rest ih =>
      cases hb : h.afterFn <;>
        simp [pickAfter, PureHooks.toHooks, hb, ih, List.filterMap_cons] <;>
        simpa [pickAfter] using ih

theorem sources_err_only (ls : List (String × (JsErr → Except JsErr Unit))) :
    (ls.map (fun p => some (errOnly p))).filterMap (fun h => h.bind (·.onError))
      = ls.map (fun p => instrErr p.1 p.2) := by
  simp only [List.filterMap_map]
  induction ls with
  | nil => rfl
  | cons p rest ih =>
      simp [Function.comp, errOnly]
      simpa [errOnly] using ih

/-! ## Transport-invocation counting -/

theorem countEvents_append (p : Event → Bool) (t s : Trace) :
    countEvents p (t ++ s) = countEvents p t + countEvents p s := by
  simp [countEvents, List.filter_append]

theorem addsNoTransport_pure {α : Type} (a : α) : addsNoTransport (pure a : M α) := by
  intro t; rfl

theorem addsNoTransport_throwErr {α : Type} (e : JsErr) :
    addsNoTransport (M.throwErr e : M α) := by
  intro t; rfl

theorem addsNoTransport_emit_hook (e : Event) (he : isTransportEv e = false) :
    addsNoTransport (M.emit e) := by
  intro t
  simp [M.emit, countEvents_append, countEvents, he]

theorem addsNoTransport_liftExc {α : Type} (x : Except JsErr α) :
    addsNoTransport (liftExc x) := by
  cases x <;> intro t <;> rfl

theorem addsNoTransport_bind {α β : Type} {m : M α} {f : α → M β}
    (hm : addsNoTransport m) (hf : ∀ a, addsNoTransport (f a)) :
    addsNoTransport (M.bind m f) := by
  intro t
  simp only [M.bind_apply]
  cases hmt : m t with
  | mk r t' =>
      cases r with
      | ok a =>
          have := hf a t'
          have hm' := hm t
          rw [hmt] at hm'
          simp only [hmt]
          simp only [this, hm']
      | error e =>
          have hm' := hm t
          rw [hmt] at hm'
          simpa using hm'

theorem countT_bind_free {α β : Type} (m : M α) (f : α → M β)
    (hf : ∀ a, addsNoTransport (f a)) (t : Trace) :
    countEvents isTransportEv ((M.bind m f) t).2
      = countEvents isTransportEv (m t).2 := by
  simp only [M.bind_apply]
  cases hmt : m t with
  | mk r t' =>
      cases r with
      | ok a => simpa using hf a t'
      | error e => rfl

theorem countT_tryCatch_free {α : Type} (m : M α) (h : JsErr → M α)
    (hh : ∀ e, addsNoTransport (h e)) (t : Trace) :
    countEvents isTransportEv ((M.tryCatchM m h) t).2
      = countEvents isTransportEv (m t).2 := by
  simp only [M.tryCatchM_apply]
  cases hmt : m t with
  | mk r t' =>
      cases r with
      | ok a => rfl
      | error e => simpa using hh e t'

theorem countT_instrTransport (g : String → Option RequestInitM → Except JsErr ResponseM)
    (u : String) (i : Option RequestInitM) (t : Trace) :
    countEvents isTransportEv ((instrTransport g u i) t).2
      = countEvents isTransportEv t + 1 := by
  simp only [instrTransport, M.bind_apply, M.emit_apply]
  cases hg : g u i with
  | ok r => simp [countEvents_append, countEvents, isTransportEv]
  | error e => simp [countEvents_append, countEvents, isTransportEv]

theorem mergeHooks_beforeRequest_eq (l : List (Option Hooks)) :
    (mergeHooks l).beforeRequest =
      (if (l.filterMap (fun h => h.bind (·.beforeRequest))).length > 0 then
        some (fun url init =>
          (l.filterMap (fun h => h.bind (·.beforeRequest))).foldlM
            (fun result hook => hook result.1 result.2) (url, init))
      else none) := rfl

theorem mergeHooks_afterResponse_eq (l : List (Option Hooks)) :
    (mergeHooks l).afterResponse =
      (if ((l.filterMap (fun h => h.bind (·.afterResponse))).reverse).length > 0 then
        some (fun response url init =>
          ((l.filterMap (fun h => h.bind (·.afterResponse))).reverse).foldlM
            (fun result hook => hook result url init) response)
      else none) := rfl

theorem mergeHooks_onError_eq (l : List (Option Hooks)) :
    (mergeHooks l).onError =
      (if (l.filterMap (fun h => h.bind (·.onError))).length > 0 then
        some (fun e => (l.filterMap (fun h => h.bind (·.onError))).forM (fun hook => hook e))
      else none) := rfl

theorem mergeHooks_before_general (hs : List PureHooks) :
    ((mergeHooks (hs.map (fun h => some h.toHooks))).beforeRequest.isSome ↔ pickBefore hs ≠ [])
    ∧ ∀ f, (mergeHooks (hs.map (fun h => some h.toHooks))).beforeRequest = some f →
        ∀ u i t, f u i t
          = (.ok (threadBefore (pickBefore hs) u i).1,
             t ++ (threadBefore (pickBefore hs) u i).2) := by
  constructor
  · rw [mergeHooks_beforeRequest_eq, sources_before hs]
    by_cases h : pickBefore hs = [] <;> simp [h, List.length_pos]
  · intro f hf u i t
    rw [mergeHooks_beforeRequest_eq, sources_before hs] at hf
    by_cases h : pickBefore hs = []
    · simp [h] at hf
    · rw [if_pos (by simp [List.length_pos, h])] at hf
      injection hf with hf'
      subst hf'
      exact beforeChain_run (pickBefore hs) u i t

theorem mergeHooks_after_general (hs : List PureHooks) :
    ((mergeHooks (hs.map (fun h => some h.toHooks))).afterResponse.isSome ↔ pickAfter hs ≠ [])
    ∧ ∀ f, (mergeHooks (hs.map (fun h => some h.toHooks))).afterResponse = some f →
        ∀ r u i t, f r u i t
          = (.ok (threadAfter (pickAfter hs).reverse r u i).1,
             t ++ (threadAfter (pickAfter hs).reverse r u i).2) := by
  constructor
  · rw [mergeHooks_afterResponse_eq, sources_after hs]
    by_cases h : pickAfter hs = [] <;> simp [h, List.length_pos]
  · intro f hf r u i t
    rw [mergeHooks_afterResponse_eq, sources_after hs] at hf
    by_cases h : pickAfter hs = []
    · simp [h] at hf
    · rw [if_pos (by simp [List.length_pos, h])] at hf
      injection hf with hf'
      subst hf'
      rw [← List.map_reverse]
      exact afterChain_run (pickAfter hs).reverse r u i t

theorem mergeHooks_err_general (ls : List (String × (JsErr → Except JsErr Unit))) :
    ((mergeHooks (ls.map (fun p => some (errOnly p)))).onError.isSome ↔ ls ≠ [])
    ∧ ∀ g, (mergeHooks (ls.map (fun p => some (errOnly p)))).onError = some g →
        ∀ e t, g e t = ((chainErr ls e).1, t ++ (chainErr ls e).2) := by
  constructor
  · rw [mergeHooks_onError_eq, sources_err_only ls]
    by_cases h : ls = [] <;> simp [h, List.length_pos]
  · intro g hg e t
    rw [mergeHooks_onError_eq, sources_err_only ls] at hg
    by_cases h : ls = []
    · simp [h] at hg
    · rw [if_pos (by simp [List.length_pos, h])] at hg
      injection hg with hg'
      subst hg'
      exact errChain_run ls e t


/-! ## Claim theorems -/

/-- C3: for an endpoint with no custom handler, the hook set used for its
calls is `mergeHooks` applied to the plugin hook sets in registration order,
then the global hook set, then the ancestor group hook sets outer→inner, then
the endpoint's own hook set; the merged pre-call chain threads `(url, init)`
through each defining source in exactly that order, each source consuming the
previous source's result.  First conjunct: the pre-call chain of `mergeHooks`
exists iff some source defines one, and threads `(url, init)` through the
defining sources in the given order, each consuming the previous result
(universal over instrumented sources).  Second and third conjuncts: in a
built client with plugins `p1, p2` (registration order), global hooks `g`,
group hooks `g1` (outer) and `g2` (inner) and endpoint hooks `ep`, all
url-appending, one default call observes the pre-call labels exactly in that
order per enhancement pass, and the underlying transport receives the url
with all labels appended in that order, so each source consumed its
predecessor's output. -/
theorem merged_hook_order_and_precall_threading :
    (∀ hs : List PureHooks,
      ((mergeHooks (hs.map (fun h => some h.toHooks))).beforeRequest.isSome ↔ pickBefore hs ≠ [])
      ∧ ∀ f, (mergeHooks (hs.map (fun h => some h.toHooks))).beforeRequest = some f →
          ∀ u i t, f u i t
            = (.ok (threadBefore (pickBefore hs) u i).1,
               t ++ (threadBefore (pickBefore hs) u i).2))
    ∧ beforeIds (M.runM (navCall (createApiClient scenarioDefs (scenarioConfig okTransport))
          ["a", "b", "ep"] none)).2
        = ["p1", "p2", "g", "g1", "g2", "ep", "p1", "p2", "g", "g1", "g2", "ep"]
    ∧ transportUrls (M.runM (navCall (createApiClient scenarioDefs (scenarioConfig okTransport))
          ["a", "b", "ep"] none)).2
        = ["https://api.example.com/xp1p2gg1g2epp1p2gg1g2ep"] := by
  refine ⟨mergeHooks_before_general, ?_, ?_⟩ <;>
    (simp [navCall, callBuilt, objGet, createApiClient, scenarioDefs, scenarioConfig,
      processList, processDef, mkPlugin, obsHooks, PureHooks.toHooks, mergeHooks,
      createEnhancedFetch, defaultHandler, buildUrl, strEndsWith, strStartsWith,
      applyHandlerWrappers, instrBefore, instrAfter, instrErr, instrTransport,
      okTransport, okResp, emptyInit, beforeIds, transportUrls, liftExc, isGroupConfig,
      HttpMethod.asString, List.find?, objAssign, objSet, List.foldlM_cons, List.foldlM_nil]
     try decide)

/-- Witness for C3: the merged pre-call chain of the single defining source
`x` threads its input through that source, which is invoked with the
arguments the chain received. -/
theorem merged_hook_order_and_precall_threading_witness :
    w3F "u" emptyInit []
      = (.ok ("ux", emptyInit), [Event.beforeHook "x" "u" emptyInit]) :=
  ((merged_hook_order_and_precall_threading.1 w3hs).2 w3F rfl "u" emptyInit []).trans rfl

/-- C4: the merged post-call chain threads `(response, url, init)` through
the defining sources in the reverse of the given order.  First conjunct: the
post-call chain of `mergeHooks` exists iff some source defines one and equals
the spec-side reverse-order threading (universal over instrumented sources).
Second conjunct: for two sources `h1, h2` (in that order), the merged chain
applies `h2` first and `h1` second, and `h1` observes `h2`'s returned
response, as both the value and the logged arguments show. -/
theorem merged_postCall_reverse_order :
    (∀ hs : List PureHooks,
      ((mergeHooks (hs.map (fun h => some h.toHooks))).afterResponse.isSome ↔ pickAfter hs ≠ [])
      ∧ ∀ f, (mergeHooks (hs.map (fun h => some h.toHooks))).afterResponse = some f →
          ∀ r u i t, f r u i t
            = (.ok (threadAfter (pickAfter hs).reverse r u i).1,
               t ++ (threadAfter (pickAfter hs).reverse r u i).2))
    ∧ ∀ (id1 id2 : String) (f1 f2 : ResponseM → String → RequestInitM → ResponseM)
        (r : ResponseM) (u : String) (i : RequestInitM) (t : Trace) g,
        (mergeHooks [some (PureHooks.toHooks ⟨id1, none, some f1, false⟩),
                     some (PureHooks.toHooks ⟨id2, none, some f2, false⟩)]).afterResponse
          = some g →
        g r u i t = (.ok (f1 (f2 r u i) u i),
                     t ++ [Event.afterHook id2 r, Event.afterHook id1 (f2 r u i)]) := by
  refine ⟨mergeHooks_after_general, ?_⟩
  intro id1 id2 f1 f2 r u i t g hg
  have h := (mergeHooks_after_general
    [⟨id1, none, some f1, false⟩, ⟨id2, none, some f2, false⟩]).2 g hg r u i t
  simpa [pickAfter, threadAfter, List.filterMap_cons] using h

/-- Witness for C4: the merged post-call chain of witness sources `h1` (adds
one to the status) and `h2` (doubles it) maps status 200 to 401, showing `h2`
ran first and `h1` second on `h2`'s output. -/
theorem merged_postCall_reverse_order_witness :
    w4F okResp "u" emptyInit []
      = (.ok { okResp with status := 401 },
         [Event.afterHook "h2" okResp, Event.afterHook "h1" { okResp with status := 400 }]) :=
  (merged_postCall_reverse_order.2 "h1" "h2" w4f1 w4f2 okResp "u" emptyInit [] w4F rfl).trans rfl

/-- C6 (amended): the merged on-error chain invokes the defining sources in
the given order, each awaited sequentially and at most once per merged-chain
call; when every on-error hook completes normally each defining source is
invoked exactly once, but a hook's own failure propagates and the remaining
defining sources are skipped.  First conjunct: the merged on-error chain
exists iff some source defines one and equals the spec-side sequential chain
that stops at the first failing hook (universal over instrumented sources).
Second conjunct: when no hook fails, the chain completes and its event log
lists every defining source exactly once, in the given order. -/
theorem merged_onError_chain_amended :
    (∀ ls : List (String × (JsErr → Except JsErr Unit)),
      ((mergeHooks (ls.map (fun p => some (errOnly p)))).onError.isSome ↔ ls ≠ [])
      ∧ ∀ g, (mergeHooks (ls.map (fun p => some (errOnly p)))).onError = some g →
          ∀ e t, g e t = ((chainErr ls e).1, t ++ (chainErr ls e).2))
    ∧ ∀ (ls : List (String × (JsErr → Except JsErr Unit))) (e : JsErr),
        (∀ p ∈ ls, p.2 e = .ok ()) →
        (chainErr ls e).1 = .ok ()
        ∧ (chainErr ls e).2 = ls.map (fun p => Event.errorHook p.1 e) := by
  refine ⟨mergeHooks_err_general, ?_⟩
  intro ls e h
  induction ls with
  | nil => simp [chainErr]
  | cons p rest ih =>
      have hp : p.2 e = .ok () := h p (by simp)
      have hr := ih (fun q hq => h q (by simp [hq]))
      simp [chainErr, hp, hr.1, hr.2]

/-- C6 counterexample: with on-error sources `e1` (which itself throws) and
`e2`, both defining, the merged chain invoked on a transport error runs `e1`
and never invokes `e2` — a defining source is skipped on account of a
sibling on-error hook's failure, refuting the claim as stated. -/
theorem merged_onError_sibling_failure_skips :
    (mergeHooks (w6ls.map (fun p => some (errOnly p)))).onError = some w6G
    ∧ w6G (.thrown "transport") []
        = (.error (.thrown "hookboom"), [Event.errorHook "e1" (.thrown "transport")])
    ∧ countEvents (isErrorId "e2") (w6G (.thrown "transport") []).2 = 0 :=
  ⟨rfl, rfl, rfl⟩

/-- Witness for C6 (amended): with two completing on-error sources `a1, a2`
the merged chain invokes both, in order, exactly once each. -/
theorem merged_onError_chain_amended_witness :
    w6okG (.thrown "x") []
      = (.ok (), [Event.errorHook "a1" (.thrown "x"), Event.errorHook "a2" (.thrown "x")])
    ∧ (chainErr w6okls (.thrown "x")).2
        = w6okls.map (fun p => Event.errorHook p.1 (.thrown "x")) := by
  constructor
  · exact ((merged_onError_chain_amended.1 w6okls).2 w6okG rfl (.thrown "x") []).trans rfl
  · exact (merged_onError_chain_amended.2 w6okls (.thrown "x")
      (by intro p hp; simp [w6okls] at hp; rcases hp with rfl | rfl <;> rfl)).2

/-- C1: on a built client, for an endpoint with no custom handler every hook
in its merged set fires exactly twice per call — the default executor builds
its own enhanced transport from the same merged hook set that already wraps
the context-level transport — while for an endpoint whose custom handler
performs exactly one call through the supplied enhanced transport every hook
fires exactly once per call.  Conjuncts 1-5: default executor — pre-call and
post-call fire twice on a successful call, pre-call and on-error fire twice
on a transport error (on-error does not run on success).  Conjuncts 6-8: the
custom handler — pre-call and post-call fire once on success, on-error fires
once on a transport error. -/
theorem hooks_fire_twice_default_once_custom :
    countEvents (isBeforeId "h") (c1Run epDefault okTransport).2 = 2
    ∧ countEvents (isAfterId "h") (c1Run epDefault okTransport).2 = 2
    ∧ countEvents (isErrorId "h") (c1Run epDefault okTransport).2 = 0
    ∧ countEvents (isBeforeId "h") (c1Run epDefault errTransport).2 = 2
    ∧ countEvents (isErrorId "h") (c1Run epDefault errTransport).2 = 2
    ∧ countEvents (isBeforeId "h") (c1Run epCustom okTransport).2 = 1
    ∧ countEvents (isAfterId "h") (c1Run epCustom okTransport).2 = 1
    ∧ countEvents (isErrorId "h") (c1Run epCustom errTransport).2 = 1 := by
  refine ⟨?_, ?_, ?_, ?_, ?_, ?_, ?_, ?_⟩ <;> decide

/-- C5 counterexample: a hook set with an on-error hook and a pre-call hook
that throws.  The enhanced call fails at the pre-call step, yet the defined
on-error hook is never awaited (no on-error event is logged) — the
`beforeRequest` invocation sits outside the `try` block — refuting the claim
as stated. -/
theorem enhanced_precall_failure_skips_onError :
    (createEnhancedFetch okTransport
        ⟨some (instrBefore "b" (fun _ _ => .error (.thrown "preboom"))),
         none, some (instrErr "e" (fun _ => .ok ()))⟩ "u" none) []
      = (.error (.thrown "preboom"), [Event.beforeHook "b" "u" emptyInit])
    ∧ countEvents (isErrorId "e")
        ((createEnhancedFetch okTransport
          ⟨some (instrBefore "b" (fun _ _ => .error (.thrown "preboom"))),
           none, some (instrErr "e" (fun _ => .ok ()))⟩ "u" none) []).2 = 0
    ∧ (Hooks.onError ⟨some (instrBefore "b" (fun _ _ => .error (.thrown "preboom"))),
         none, some (instrErr "e" (fun _ => .ok ()))⟩).isSome = true :=
  ⟨rfl, rfl, rfl⟩

/-- C5 (amended): for an enhanced-transport call that fails at the transport
invocation: if the hook set defines an on-error hook it is awaited with the
error and, when it completes normally, the original error is re-thrown
unchanged; when the on-error hook itself throws, its failure supersedes the
original error; with no on-error hook the original error propagates
unchanged.  A failure at the pre-call step, by contrast, propagates without
on-error being awaited (third conjunct: the call's outcome is exactly the
pre-call hook's failing outcome, with no further event). -/
theorem enhanced_onError_amended :
    (∀ (oe : JsErr → M Unit) (af : Option (ResponseM → String → RequestInitM → M ResponseM))
        (e : JsErr) (u : String) (i : Option RequestInitM) (t : Trace),
      (createEnhancedFetch (fun _ _ => M.throwErr e) ⟨none, af, some oe⟩ u i) t
        = match oe e t with
          | (.ok _, t') => (.error e, t')
          | (.error e', t') => (.error e', t'))
    ∧ (∀ (af : Option (ResponseM → String → RequestInitM → M ResponseM))
        (e : JsErr) (u : String) (i : Option RequestInitM) (t : Trace),
      (createEnhancedFetch (fun _ _ => M.throwErr e) ⟨none, af, none⟩ u i) t = (.error e, t))
    ∧ (∀ (tr : Transport) (bf : String → RequestInitM → M (String × RequestInitM))
        (af : Option (ResponseM → String → RequestInitM → M ResponseM))
        (oe : Option (JsErr → M Unit)) (u : String) (i : Option RequestInitM)
        (t t' : Trace) (e0 : JsErr),
      bf u (i.getD emptyInit) t = (.error e0, t') →
      (createEnhancedFetch tr ⟨some bf, af, oe⟩ u i) t = (.error e0, t')) := by
  refine ⟨?_, ?_, ?_⟩
  · intro oe af e u i t
    simp only [createEnhancedFetch, M.bind_apply, M.pure_apply, M.tryCatchM_apply,
      M.throwErr_apply]
    cases h : oe e t with
    | mk r t' => cases r <;> simp
  · intro af e u i t
    simp only [createEnhancedFetch, M.bind_apply, M.pure_apply, M.tryCatchM_apply,
      M.throwErr_apply]
  · intro tr bf af oe u i t t' e0 hbf
    simp only [createEnhancedFetch, M.bind_apply, hbf]

/-- Witness for C5 (amended): a completing on-error hook observes the
transport error and the original error is re-thrown; a throwing pre-call hook
makes the call fail with the pre-call error and nothing else runs. -/
theorem enhanced_onError_amended_witness :
    (createEnhancedFetch (fun _ _ => M.throwErr (.thrown "boom"))
        ⟨none, none, some (instrErr "e" (fun _ => .ok ()))⟩ "u" none) []
      = (.error (.thrown "boom"), [Event.errorHook "e" (.thrown "boom")])
    ∧ (createEnhancedFetch okTransport
        ⟨some (instrBefore "b" (fun _ _ => .error (.thrown "pb"))), none, none⟩ "u" none) []
      = (.error (.thrown "pb"), [Event.beforeHook "b" "u" emptyInit]) := by
  constructor
  · exact (enhanced_onError_amended.1 (instrErr "e" (fun _ => .ok ())) none
      (.thrown "boom") "u" none []).trans rfl
  · exact enhanced_onError_amended.2.2 okTransport
      (instrBefore "b" (fun _ _ => .error (.thrown "pb"))) none none "u" none
      [] [Event.beforeHook "b" "u" emptyInit] (.thrown "pb") rfl

/-- C9: per enhanced-transport call the underlying transport is invoked at
most once — zero times when the pre-call hook throws, otherwise exactly once
— and the enhanced layer never retries.  The transport is instrumented to log
each of its invocations; the hooks are arbitrary computations that do not
themselves invoke the transport. -/
theorem transport_invoked_at_most_once
    (hooks : Hooks) (g : String → Option RequestInitM → Except JsErr ResponseM)
    (hb : ∀ br, hooks.beforeRequest = some br → ∀ u i, addsNoTransport (br u i))
    (ha : ∀ ar, hooks.afterResponse = some ar → ∀ r u i, addsNoTransport (ar r u i))
    (he : ∀ oe, hooks.onError = some oe → ∀ e, addsNoTransport (oe e))
    (u : String) (i : Option RequestInitM) (t : Trace) :
    match hooks.beforeRequest with
    | none =>
        countEvents isTransportEv ((createEnhancedFetch (instrTransport g) hooks u i) t).2
          = countEvents isTransportEv t + 1
    | some br =>
        match br u (i.getD emptyInit) t with
        | (.error _, _) =>
            countEvents isTransportEv ((createEnhancedFetch (instrTransport g) hooks u i) t).2
              = countEvents isTransportEv t
        | (.ok _, _) =>
            countEvents isTransportEv ((createEnhancedFetch (instrTransport g) hooks u i) t).2
              = countEvents isTransportEv t + 1 := by
  have hkey : ∀ (p : String × RequestInitM) (t'' : Trace),
      countEvents isTransportEv
        ((M.tryCatchM
          (M.bind (instrTransport g p.1 (some p.2)) (fun response =>
            match hooks.afterResponse with
            | some ar => ar response p.1 p.2
            | none => pure response))
          (fun error =>
            M.bind
              (match hooks.onError with
               | some oe => oe error
               | none => pure ())
              (fun _ => M.throwErr error))) t'').2
        = countEvents isTransportEv t'' + 1 := by
    intro p t''
    have hfreeH : ∀ e, addsNoTransport
        (M.bind
          (match hooks.onError with
           | some oe => oe e
           | none => pure ())
          (fun _ => (M.throwErr e : M ResponseM))) := by
      intro e
      apply addsNoTransport_bind
      · cases hoe : hooks.onError with
        | some oe => exact he oe hoe e
        | none => exact addsNoTransport_pure ()
      · intro a
        exact addsNoTransport_throwErr e
    have hfreeA : ∀ r, addsNoTransport
        (match hooks.afterResponse with
         | some ar => ar r p.1 p.2
         | none => pure r) := by
      intro r
      cases har : hooks.afterResponse with
      | some ar => exact ha ar har r p.1 p.2
      | none => exact addsNoTransport_pure r
    exact (countT_tryCatch_free _ _ hfreeH t'').trans
      ((countT_bind_free _ _ hfreeA t'').trans (countT_instrTransport g p.1 (some p.2) t''))
  cases hB : hooks.beforeRequest with
  | none =>
      simp only [createEnhancedFetch, hB, M.bind_apply, M.pure_apply]
      exact hkey (u, i.getD emptyInit) t
  | some br =>
      cases hbr : br u (i.getD emptyInit) t with
      | mk r t' =>
          have h2 := hb br hB u (i.getD emptyInit) t
          rw [hbr] at h2
          cases r with
          | error e =>
              simp only [createEnhancedFetch, hB, M.bind_apply, hbr]
              simpa using h2
          | ok p =>
              simp only [createEnhancedFetch, hB, M.bind_apply, hbr]
              have h1 := hkey p t'
              simp only [h1]
              simpa using h2

/-- Witness for C9: with a succeeding instrumented pre-call hook, an on-error
hook and a succeeding transport, one enhanced call invokes the underlying
transport exactly once. -/
theorem transport_invoked_at_most_once_witness :
    countEvents isTransportEv
      ((createEnhancedFetch (instrTransport (fun _ _ => .ok okResp))
        ⟨some (instrBefore "b" (fun u i => .ok (u, i))), none,
         some (instrErr "e" (fun _ => .ok ()))⟩ "u" none) []).2 = 1 := by
  have h := transport_invoked_at_most_once
    ⟨some (instrBefore "b" (fun u i => .ok (u, i))), none,
     some (instrErr "e" (fun _ => .ok ()))⟩
    (fun _ _ => .ok okResp)
    (by
      intro br hbr u i
      cases hbr
      exact addsNoTransport_bind (addsNoTransport_emit_hook _ rfl)
        (fun a => addsNoTransport_liftExc _))
    (by intro ar har; cases har)
    (by
      intro oe hoe e
      cases hoe
      exact addsNoTransport_bind (addsNoTransport_emit_hook _ rfl)
        (fun a => addsNoTransport_liftExc _))
    "u" none []
  simpa [instrBefore, liftExc] using h

/-- C8: a default-executed call whose response has a non-success status
rejects with a Request Failure whose `status` and `statusText` equal the
response's, and whose `error` field is the body decoded as structured data,
or `{}` when decoding the body fails — universally over status, statusText,
decoded-or-undecodable body, method, path, input, configuration and incoming
trace, with the empty merged hook set. -/
theorem default_executor_request_failure_shape
    (st : Nat) (stText : String) (body : Option JsonVal) (method : HttpMethod)
    (path : String) (input : Option JsonVal) (config : ApiConfig) (t : Trace) :
    (defaultHandler method path input (mergeHooks []) config
        (fun _ _ => pure ⟨false, st, stText, body⟩)) t
      = (.error (.requestFailure st stText (body.getD (JsonVal.obj []))), t) := by
  simp [defaultHandler, createEnhancedFetch, mergeHooks, M.tryCatchM]

theorem firstDupAux_none_nodup (l : List String) :
    ∀ seen, firstDupAux seen l = none → l.Nodup ∧ ∀ x ∈ l, x ∉ seen := by
  induction l with
  | nil => intro seen _; simp
  | cons n rest ih =>
      intro seen h
      rw [firstDupAux] at h
      by_cases hn : n ∈ seen
      · simp [hn] at h
      · rw [if_neg hn] at h
        obtain ⟨hnd, hmem⟩ := ih (seen ++ [n]) h
        refine ⟨List.nodup_cons.mpr ⟨?_, hnd⟩, ?_⟩
        · intro hc
          exact (hmem n hc) (by simp)
        · intro x hx
          rcases List.mem_cons.mp hx with rfl | hx'
          · exact hn
          · intro hxs
            exact hmem x hx' (by simp [hxs])

theorem firstDupAux_some_count (l : List String) :
    ∀ seen d, firstDupAux seen l = some d → (d ∈ seen ∧ d ∈ l) ∨ 2 ≤ l.count d := by
  induction l with
  | nil => intro seen d h; simp [firstDupAux] at h
  | cons n rest ih =>
      intro seen d h
      rw [firstDupAux] at h
      by_cases hn : n ∈ seen
      · rw [if_pos hn] at h
        injection h with h'
        subst h'
        exact .inl ⟨hn, by simp⟩
      · rw [if_neg hn] at h
        rcases ih (seen ++ [n]) d h with ⟨hds, hdr⟩ | hc
        · rcases List.mem_append.mp hds with hds' | hdn
          · exact .inl ⟨hds', List.mem_cons_of_mem _ hdr⟩
          · have hdn' : d = n := by simpa using hdn
            subst hdn'
            refine .inr ?_
            have h1 : 1 ≤ rest.count d := List.one_le_count_iff.mpr hdr
            have h2 : (d :: rest).count d = rest.count d + 1 := List.count_cons_self d rest
            omega
        · refine .inr ?_
          have hle : rest.count d ≤ (n :: rest).count d := by
            rw [List.count_cons]
            omega
          omega

/-- C2: a plugin list in which two plugins share an identity makes client
construction fail synchronously with an error naming the first duplicate
identity found — an identity occurring at least twice in the registration
list — before any endpoint is callable.  The error value models the
synchronously thrown construction error. -/
theorem duplicate_plugin_identity_aborts_build
    (endpoints : List (String × DefTree)) (config : ApiConfig) (ps : List PluginOptions)
    (hdup : ¬ (ps.map (·.name)).Nodup) :
    ∃ d, createApiClientChecked endpoints { config with plugins := some ps }
        = .error ("Duplicate plugin name: \"" ++ d ++ "\"")
      ∧ 2 ≤ (ps.map (·.name)).count d := by
  cases hfd : firstDupAux [] (ps.map (·.name)) with
  | none =>
      exact absurd (firstDupAux_none_nodup _ [] hfd).1 hdup
  | some d =>
      refine ⟨d, ?_, ?_⟩
      · simp [createApiClientChecked, hfd]
      · rcases firstDupAux_some_count _ [] d hfd with ⟨hds, _⟩ | hc
        · simp at hds
        · exact hc

/-- Witness for C2: two plugins both named `cache` abort the build with an
error whose message contains `cache`. -/
theorem duplicate_plugin_identity_aborts_build_witness :
    ∃ d, createApiClientChecked []
        { baseUrl := "b", fetchImpl := some okTransport, defaultHeaders := []
          hooks := none,
          plugins := some [⟨"cache", none, none, none⟩, ⟨"cache", none, none, none⟩] }
        = .error ("Duplicate plugin name: \"" ++ d ++ "\"")
      ∧ 2 ≤ (([⟨"cache", none, none, none⟩, ⟨"cache", none, none, none⟩] :
          List PluginOptions).map (·.name)).count d := by
  have h := duplicate_plugin_identity_aborts_build []
    { baseUrl := "b", fetchImpl := some okTransport, defaultHeaders := []
      hooks := none, plugins := none }
    [⟨"cache", none, none, none⟩, ⟨"cache", none, none, none⟩]
    (by decide)
  simpa using h

theorem foldl_objSet_eq_append {α : Type} (l : List (String × α)) :
    ∀ acc : List (String × α), (l.map (·.1)).Nodup →
    (∀ kv ∈ l, ∀ kv' ∈ acc, kv'.1 ≠ kv.1) →
    l.foldl (fun a kv => objSet a kv.1 kv.2) acc = acc ++ l := by
  induction l with
  | nil => intro acc _ _; simp
  | cons kv rest ih =>
      intro acc hnd hdis
      rw [List.map_cons] at hnd
      have hhead : kv.1 ∉ rest.map (·.1) := (List.nodup_cons.mp hnd).1
      have htail : (rest.map (·.1)).Nodup := (List.nodup_cons.mp hnd).2
      have hny : acc.any (fun kv' => kv'.1 = kv.1) ≠ true := by
        simp only [ne_eq, List.any_eq_true, decide_eq_true_eq, not_exists, not_and]
        intro kv' h'
        exact hdis kv (by simp) kv' h'
      have step : objSet acc kv.1 kv.2 = acc ++ [kv] := by
        simp only [objSet]
        rw [if_neg hny]
      rw [List.foldl_cons, step,
        ih (acc ++ [kv]) htail ?_]
      · simp
      · intro kv2 h2 kv' h'
        rcases List.mem_append.mp h' with ha | hb
        · exact hdis kv2 (List.mem_cons_of_mem _ h2) kv' ha
        · have hkv : kv' = kv := by simpa using hb
          subst hkv
          intro hc
          exact hhead (hc ▸ List.mem_map_of_mem (·.1) h2)

theorem objGet_of_mem_nodup {α : Type} (l : List (String × α)) :
    (l.map (·.1)).Nodup → ∀ (k : String) (v : α), (k, v) ∈ l → objGet l k = some v := by
  induction l with
  | nil => intro _ k v hm; simp at hm
  | cons kv rest ih =>
      intro hnd k v hm
      rw [List.map_cons] at hnd
      have hhead : kv.1 ∉ rest.map (·.1) := (List.nodup_cons.mp hnd).1
      have htail : (rest.map (·.1)).Nodup := (List.nodup_cons.mp hnd).2
      rcases List.mem_cons.mp hm with rfl | hm'
      · simp [objGet, List.find?]
      · have hne : kv.1 ≠ k := by
          intro hc
          have : k ∈ rest.map (·.1) := by
            have : (k, v).1 ∈ rest.map (·.1) := List.mem_map_of_mem (·.1) hm'
            simpa using this
          exact hhead (hc ▸ this)
        have := ih htail k v hm'
        simp only [objGet, List.find?] at this ⊢
        rw [show (decide (kv.1 = k)) = false by simpa using hne]
        exact this

theorem withMethods_keys_sublist (ps : List PluginOptions) :
    ((ps.filterMap (fun p => p.methods.map (fun ms => (p.name, ms)))).map (·.1)).Sublist
      (ps.map (·.name)) := by
  induction ps with
  | nil => simp
  | cons p rest ih =>
      cases hm : p.methods with
      | none =>
          simp only [List.filterMap_cons, hm, Option.map_none', List.map_cons]
          exact ih.cons _
      | some ms =>
          simp only [List.filterMap_cons, hm, Option.map_some', List.map_cons]
          exact ih.cons₂ _

/-- C7: each plugin that defines a methods map has those methods exposed on
the plugins namespace under a property named by the plugin's identity, and
when no registered plugin defines any methods the plugins namespace is
entirely absent (not an empty object).  First conjunct: the namespace is
absent exactly when no plugin defines methods.  Second conjunct: a plugin
with methods finds them under its identity.  Third conjunct: the validated
build returns exactly this optional namespace beside the endpoint tree. -/
theorem plugin_methods_namespace (ps : List PluginOptions)
    (hnd : (ps.map (·.name)).Nodup) :
    (buildPluginMethods ps = none ↔ ∀ p ∈ ps, p.methods = none)
    ∧ (∀ p ∈ ps, ∀ ms, p.methods = some ms →
        ∃ entries, buildPluginMethods ps = some entries ∧ objGet entries p.name = some ms)
    ∧ ∀ (endpoints : List (String × DefTree)) (config : ApiConfig),
        config.plugins = some ps →
        createApiClientChecked endpoints config
          = .ok (createApiClient endpoints config, buildPluginMethods ps) := by
  have keysnd : ((ps.filterMap (fun p => p.methods.map (fun ms => (p.name, ms)))).map (·.1)).Nodup :=
    List.Nodup.sublist (withMethods_keys_sublist ps) hnd
  have hfold : (ps.filterMap (fun p => p.methods.map (fun ms => (p.name, ms)))).foldl
      (fun acc kv => objSet acc kv.1 kv.2) []
      = ps.filterMap (fun p => p.methods.map (fun ms => (p.name, ms))) := by
    have h := foldl_objSet_eq_append
      (ps.filterMap (fun p => p.methods.map (fun ms => (p.name, ms)))) [] keysnd
      (by intro kv hkv kv' h'; cases h')
    simpa using h
  refine ⟨?_, ?_, ?_⟩
  · constructor
    · intro h p hp
      by_cases he : (ps.filterMap (fun p => p.methods.map (fun ms => (p.name, ms)))) = []
      · have := List.filterMap_eq_nil_iff.mp he p hp
        exact Option.map_eq_none'.mp this
      · simp [buildPluginMethods, List.isEmpty_eq_false.mpr he] at h
    · intro h
      have he : (ps.filterMap (fun p => p.methods.map (fun ms => (p.name, ms)))) = [] :=
        List.filterMap_eq_nil_iff.mpr (fun p hp => by rw [h p hp]; rfl)
      simp [buildPluginMethods, he]
  · intro p hp ms hm
    have hmem : (p.name, ms) ∈ ps.filterMap (fun p => p.methods.map (fun ms => (p.name, ms))) :=
      List.mem_filterMap.mpr ⟨p, hp, by rw [hm]; rfl⟩
    have hne : (ps.filterMap (fun p => p.methods.map (fun ms => (p.name, ms)))) ≠ [] :=
      List.ne_nil_of_mem hmem
    refine ⟨ps.filterMap (fun p => p.methods.map (fun ms => (p.name, ms))), ?_, ?_⟩
    · simp [buildPluginMethods, List.isEmpty_eq_false.mpr hne, hfold]
    · exact objGet_of_mem_nodup _ keysnd p.name ms hmem
  · intro endpoints config hcfg
    have hnone : firstDupAux [] (ps.map (·.name)) = none := by
      cases hfd : firstDupAux [] (ps.map (·.name)) with
      | none => rfl
      | some d =>
          rcases firstDupAux_some_count _ [] d hfd with ⟨hds, _⟩ | hc
          · simp at hds
          · have hle := List.nodup_iff_count_le_one.mp hnd d
            exact absurd (le_trans hc hle) (by omega)
    simp [createApiClientChecked, hcfg, hnone]

/-- Witness for C7: a hooks-only plugin yields no plugins namespace; a plugin
`m` with a methods map finds its methods under the key `m`. -/
theorem plugin_methods_namespace_witness :
    buildPluginMethods [⟨"hookOnly", some (obsHooks "h"), none, none⟩] = none
    ∧ ∃ entries,
        buildPluginMethods
            [⟨"m", none, none, some [("greet", fun _ => pure (JsonVal.str "hi"))]⟩]
          = some entries
        ∧ objGet entries "m" = some [("greet", fun _ => pure (JsonVal.str "hi"))] := by
  constructor
  · exact (plugin_methods_namespace [⟨"hookOnly", some (obsHooks "h"), none, none⟩]
      (by decide)).1.mpr (by intro p hp; simp at hp; subst hp; rfl)
  · exact (plugin_methods_namespace
      [⟨"m", none, none, some [("greet", fun _ => pure (JsonVal.str "hi"))]⟩]
      (by decide)).2.1 _ (List.mem_singleton.mpr rfl) _ rfl

theorem objAssign_single_override {α : Type} (k : String) (x y : α) :
    objAssign (objAssign [] [(k, x)]) [(k, y)] = [(k, y)] := by
  simp [objAssign, objSet]

/-- C10: when a group descriptor's endpoints map and groups map both define
the same key, the built namespace binds that key to the recursively built
sub-group object, silently replacing the endpoint callable of that name: the
endpoints map is processed first and the groups map is merged over it
afterwards by key assignment.  Universally over the key, the endpoint
descriptor, the sub-group descriptor and the build parameters, the resulting
namespace is exactly the single binding to the recursively processed
sub-group. -/
theorem group_key_overrides_endpoint
    (k : String) (e : EndpointCfg) (nodeHooks gh : Option Hooks)
    (geps ggrps : Option (List (String × DefTree)))
    (config : ApiConfig) (fetchInstance : Transport)
    (parentHooks : List Hooks) (plugins : List PluginOptions) :
    processDef (.node nodeHooks (some [(k, .leaf e)]) (some [(k, .node gh geps ggrps)]))
        config fetchInstance parentHooks plugins
      = Built.ns [(k, processDef (.node gh geps ggrps) config fetchInstance
          (parentHooks ++ (match nodeHooks with | some h => [h] | none => [])) plugins)] := by
  show Built.ns
      (objAssign
        (objAssign []
          [(k, processDef (.leaf e) config fetchInstance
              (parentHooks ++ (match nodeHooks with | some h => [h] | none => [])) plugins)])
        [(k, processDef (.node gh geps ggrps) config fetchInstance
            (parentHooks ++ (match nodeHooks with | some h => [h] | none => [])) plugins)])
    = _
  exact congrArg Built.ns (objAssign_single_override k _ _)
